import Mathlib

/-!
Shallow embedding of `src/main.py` (StrategyPattern_PDF).

The program is a Strategy-pattern dispatch layer over a PDF library:
`MergeStrategy.execute` concatenates the pages of a list of input PDFs,
`SplitStrategy.execute` writes the Python slice `reader.pages[start_page:end_page]`
of a single input PDF, and `PDFEditor` holds a current operation and forwards
`execute_operation(pdf_path, output_path)` to it unchanged.

Model: a page is an opaque value of a type `α`; a document is its ordered
page list; the file system is `FS α := String → Option (List α)` where `none`
means the path is unreadable or malformed (`PdfReader` raises).  Each
`execute` returns the resulting file system together with an optional error:
in the Python code the output file is opened only after all reads succeed,
so on a read error the file system is unchanged.
-/

/-- File system: maps a path to the page list of the document stored there,
or `none` when the path is unreadable/malformed (reading it raises). -/
def FS (α : Type) : Type := String → Option (List α)

/-- Errors raised by the PDF layer (propagated `pypdf` exceptions). -/
inductive PdfError where
  | inputUnreadable : String → PdfError
deriving DecidableEq, Repr

/-- `with open(output_path, 'wb') as out: writer.write(out)` — store the
accumulated page list at `output_path`, overwriting if present. -/
def writeOut {α : Type} (fs : FS α) (output_path : String) (pages : List α) : FS α :=
  fun p => if p = output_path then some pages else fs p

/-- The loop body of `MergeStrategy.execute`: for each path, read the
document (raising if unreadable) and append its pages to the writer. -/
def mergeLoop {α : Type} (fs : FS α) (writer : List α) : List String → Except PdfError (List α)
  | [] => .ok writer
  | path :: rest =>
    match fs path with
    | none => .error (.inputUnreadable path)
    | some pages => mergeLoop fs (writer ++ pages) rest

/-- `MergeStrategy.execute(pdf_paths, output_path)`: read every input in
order, appending all its pages to one writer, then write the result at
`output_path`.  A read error propagates before the output file is opened. -/
def MergeStrategy.execute {α : Type} (fs : FS α) (pdf_paths : List String)
    (output_path : String) : FS α × Option PdfError :=
  match mergeLoop fs [] pdf_paths with
  | .error e => (fs, some e)
  | .ok pages => (writeOut fs output_path pages, none)

/-- Python's index normalisation for a slice bound on a sequence of length
`n`: a negative index counts from the end (floored at 0), a non-negative
index is capped at `n`. -/
def pySliceIdx (n : Nat) (i : Int) : Nat :=
  if i < 0 then (i + n).toNat else min i.toNat n

/-- Python's `l[start:stop]` for step 1: `stop = none` means "through the
last element". -/
def pySlice {α : Type} (l : List α) (start : Int) (stop : Option Int) : List α :=
  let n := l.length
  let s := pySliceIdx n start
  let e := match stop with
    | none => n
    | some j => pySliceIdx n j
  (l.take e).drop s

/-- `SplitStrategy.execute(pdf_path, output_path, start_page, end_page)`:
read the input (raising if unreadable) and write the page slice
`reader.pages[start_page:end_page]` at `output_path`. -/
def SplitStrategy.executeWith {α : Type} (fs : FS α) (pdf_path output_path : String)
    (start_page : Int) (end_page : Option Int) : FS α × Option PdfError :=
  match fs pdf_path with
  | none => (fs, some (.inputUnreadable pdf_path))
  | some pages => (writeOut fs output_path (pySlice pages start_page end_page), none)

/-- `SplitStrategy.execute` called with only `(pdf_path, output_path)`:
the defaults `start_page = 0` and `end_page = None` apply. -/
def SplitStrategy.execute {α : Type} (fs : FS α) (pdf_path output_path : String) :
    FS α × Option PdfError :=
  SplitStrategy.executeWith fs pdf_path output_path 0 none

/-- An operation as held by the editor: Python passes the strategy object
whose `execute` takes `(pdf_path, output_path)`; the input's type `ι` is
whatever the caller supplies (a path for split, a path list for merge). -/
def PdfOp (ι α : Type) : Type := FS α → ι → String → FS α × Option PdfError

/-- `PDFEditor`: holds the current operation (`self._operation`). -/
structure PDFEditor (ι α : Type) where
  _operation : PdfOp ι α

/-- The `operation` property getter: returns the current strategy. -/
def PDFEditor.operation {ι α : Type} (e : PDFEditor ι α) : PdfOp ι α :=
  e._operation

/-- The `operation` property setter: replaces the current strategy. -/
def PDFEditor.set_operation {ι α : Type} (_e : PDFEditor ι α) (op : PdfOp ι α) :
    PDFEditor ι α :=
  { _operation := op }

/-- `PDFEditor.execute_operation(pdf_path, output_path)`: forwards the two
arguments unchanged to `self._operation.execute`. -/
def PDFEditor.execute_operation {ι α : Type} (e : PDFEditor ι α) (fs : FS α)
    (pdf_path : ι) (output_path : String) : FS α × Option PdfError :=
  e._operation fs pdf_path output_path

/-- A concrete file system used by the witness theorems:
`"a.pdf"` has pages `[0, 1, 2]`, `"b.pdf"` has pages `[10, 11]`,
`"big.pdf"` has pages `[0, 1, 2, 3, 4]`, everything else is unreadable. -/
def fsW : FS Nat := fun p =>
  if p = "a.pdf" then some [0, 1, 2]
  else if p = "b.pdf" then some [10, 11]
  else if p = "big.pdf" then some [0, 1, 2, 3, 4]
  else none

/-! ### Helper lemmas -/

theorem pySliceIdx_natCast (n a : Nat) : pySliceIdx n (a : Int) = min a n := by
  unfold pySliceIdx
  rw [if_neg (by omega)]
  omega

theorem pySliceIdx_neg (n : Nat) (s : Int) (hs : s < 0) :
    pySliceIdx n s = (s + n).toNat := by
  unfold pySliceIdx
  rw [if_pos hs]

theorem pySlice_natCast {α : Type} (l : List α) (a b : Nat) (ha : a ≤ l.length)
    (hb : b ≤ l.length) : pySlice l (a : Int) (some (b : Int)) = (l.take b).drop a := by
  unfold pySlice
  simp only [pySliceIdx_natCast]
  rw [Nat.min_eq_left ha, Nat.min_eq_left hb]

theorem pySlice_nil_of_degenerate {α : Type} (l : List α) (a b : Nat)
    (h : b ≤ a ∨ l.length ≤ a) : pySlice l (a : Int) (some (b : Int)) = [] := by
  unfold pySlice
  simp only [pySliceIdx_natCast]
  apply List.drop_eq_nil_of_le
  rw [List.length_take]
  omega

theorem pySlice_of_stop_ge {α : Type} (l : List α) (a b : Nat)
    (h : l.length ≤ b) : pySlice l (a : Int) (some (b : Int)) = l.drop a := by
  unfold pySlice
  simp only [pySliceIdx_natCast]
  rw [Nat.min_eq_right h, List.take_length]
  rcases Nat.le_total a l.length with ha | ha
  · rw [Nat.min_eq_left ha]
  · rw [Nat.min_eq_right ha, List.drop_eq_nil_of_le (Nat.le_refl _),
      List.drop_eq_nil_of_le ha]

theorem pySlice_zero_none {α : Type} (l : List α) : pySlice l 0 none = l := by
  unfold pySlice
  simp [pySliceIdx]

theorem pySlice_neg_none {α : Type} (l : List α) (s : Int) (hs : s < 0) :
    pySlice l s none = l.drop (s + l.length).toNat := by
  simp only [pySlice, List.take_length]
  rw [pySliceIdx_neg _ _ hs]

theorem executeWith_some {α : Type} (fs : FS α) (pdf_path output_path : String)
    (d : List α) (s : Int) (e : Option Int) (hd : fs pdf_path = some d) :
    SplitStrategy.executeWith fs pdf_path output_path s e
      = (writeOut fs output_path (pySlice d s e), none) := by
  unfold SplitStrategy.executeWith
  rw [hd]

theorem drop_length_sub_one {α : Type} (l : List α) (h : l ≠ []) :
    l.drop (l.length - 1) = [l.getLast h] := by
  induction l with
  | nil => exact absurd rfl h
  | cons x xs ih =>
    cases xs with
    | nil => rfl
    | cons y ys =>
      have hcons : (x :: y :: ys).length - 1 = (y :: ys).length - 1 + 1 := by
        simp
      rw [hcons, List.drop_succ_cons, ih (by simp)]
      congr 1

theorem mergeLoop_ok {α : Type} (fs : FS α) (paths : List String) (acc : List α)
    (h : ∀ p ∈ paths, (fs p).isSome) :
    mergeLoop fs acc paths = .ok (acc ++ (paths.map fun p => (fs p).getD []).flatten) := by
  induction paths generalizing acc with
  | nil => simp [mergeLoop]
  | cons p ps ih =>
    obtain ⟨d, hd⟩ := Option.isSome_iff_exists.mp (h p (by simp))
    have step : mergeLoop fs acc (p :: ps) = mergeLoop fs (acc ++ d) ps := by
      rw [mergeLoop, hd]
    rw [step, ih _ (fun q hq => h q (by simp [hq]))]
    simp [hd]

theorem mergeLoop_err {α : Type} (fs : FS α) (paths : List String) (acc : List α)
    (h : ∃ p ∈ paths, fs p = none) :
    ∃ e, mergeLoop fs acc paths = .error e := by
  induction paths generalizing acc with
  | nil => simp at h
  | cons p ps ih =>
    cases hfp : fs p with
    | none => exact ⟨.inputUnreadable p, by rw [mergeLoop, hfp]⟩
    | some d =>
      rw [mergeLoop, hfp]
      apply ih
      rcases h with ⟨q, hq, hnone⟩
      rcases List.mem_cons.mp hq with rfl | hmem
      · exact absurd hfp (by rw [hnone]; exact fun hx => Option.noConfusion hx)
      · exact ⟨q, hmem, hnone⟩

/-! ### Claim theorems -/

/-- C3: `PDFEditor.execute_operation(inputs, outputPath)` forwards its
arguments unchanged to the held operation's `execute`, with no validation
and no transformation, so its result and effect equal those of calling the
held operation's `execute` directly with the same arguments. -/
theorem editor_forwards_unchanged {ι α : Type} (e : PDFEditor ι α) (fs : FS α)
    (inputs : ι) (output_path : String) :
    e.execute_operation fs inputs output_path = e.operation fs inputs output_path :=
  rfl

/-- C5: after assigning a new operation through the setter, a subsequent
`execute_operation` call dispatches to the new operation's `execute` (never
the old one's), and reading the `operation` property returns the new one. -/
theorem editor_set_operation_dispatch {ι α : Type} (oldOp newOp : PdfOp ι α)
    (fs : FS α) (inputs : ι) (output_path : String) :
    ((PDFEditor.mk oldOp).set_operation newOp).execute_operation fs inputs output_path
      = newOp fs inputs output_path ∧
    ((PDFEditor.mk oldOp).set_operation newOp).operation = newOp :=
  ⟨rfl, rfl⟩

/-- C8: `MergeStrategy.execute` on the empty input list raises no error of
this layer and writes an empty (zero-page) output document at the output
path. -/
theorem merge_empty_inputs {α : Type} (fs : FS α) (output_path : String) :
    (MergeStrategy.execute fs [] output_path).2 = none ∧
    (MergeStrategy.execute fs [] output_path).1 output_path = some [] := by
  refine ⟨rfl, ?_⟩
  simp [MergeStrategy.execute, mergeLoop, writeOut]

/-- C7: if some input path is unreadable, `MergeStrategy.execute` propagates
an error to the caller, the whole operation aborts, and no output file is
written at the output path (the file system is unchanged). -/
theorem merge_unreadable_aborts {α : Type} (fs : FS α) (paths : List String)
    (output_path : String) (h : ∃ p ∈ paths, fs p = none) :
    (∃ e, (MergeStrategy.execute fs paths output_path).2 = some e) ∧
    (MergeStrategy.execute fs paths output_path).1 = fs ∧
    (MergeStrategy.execute fs paths output_path).1 output_path = fs output_path := by
  obtain ⟨e, he⟩ := mergeLoop_err fs paths [] h
  unfold MergeStrategy.execute
  rw [he]
  exact ⟨⟨e, rfl⟩, rfl, rfl⟩

/-- C7 witness: merging over a missing path propagates an error and leaves
the file system unchanged. -/
theorem merge_unreadable_aborts_witness :
    (∃ p ∈ ["a.pdf", "missing.pdf"], fsW p = none) ∧
    ((∃ e, (MergeStrategy.execute fsW ["a.pdf", "missing.pdf"] "out.pdf").2 = some e) ∧
     (MergeStrategy.execute fsW ["a.pdf", "missing.pdf"] "out.pdf").1 = fsW ∧
     (MergeStrategy.execute fsW ["a.pdf", "missing.pdf"] "out.pdf").1 "out.pdf"
       = fsW "out.pdf") :=
  ⟨by decide, merge_unreadable_aborts fsW ["a.pdf", "missing.pdf"] "out.pdf" (by decide)⟩

/-- C1: merging a non-empty list of readable input documents produces an
output document at the output path whose page sequence is the concatenation
of the inputs' page sequences in input order, and whose page count is the
sum of the inputs' page counts. -/
theorem merge_concatenates_pages {α : Type} (fs : FS α) (paths : List String)
    (output_path : String) (_hne : paths ≠ []) (h : ∀ p ∈ paths, (fs p).isSome) :
    (MergeStrategy.execute fs paths output_path).2 = none ∧
    (MergeStrategy.execute fs paths output_path).1 output_path
      = some ((paths.map fun p => (fs p).getD []).flatten) ∧
    ((paths.map fun p => (fs p).getD []).flatten).length
      = (paths.map fun p => ((fs p).getD []).length).sum := by
  unfold MergeStrategy.execute
  rw [mergeLoop_ok fs paths [] h]
  refine ⟨rfl, ?_, ?_⟩
  · simp [writeOut]
  · rw [List.length_flatten, List.map_map]
    rfl

/-- C1 witness: merging a 3-page and a 2-page document yields their 5 pages
concatenated in order. -/
theorem merge_concatenates_pages_witness :
    (["a.pdf", "b.pdf"] : List String) ≠ [] ∧
    (∀ p ∈ (["a.pdf", "b.pdf"] : List String), (fsW p).isSome) ∧
    ((MergeStrategy.execute fsW ["a.pdf", "b.pdf"] "out.pdf").2 = none ∧
     (MergeStrategy.execute fsW ["a.pdf", "b.pdf"] "out.pdf").1 "out.pdf"
       = some (((["a.pdf", "b.pdf"] : List String).map fun p => (fsW p).getD []).flatten) ∧
     (((["a.pdf", "b.pdf"] : List String).map fun p => (fsW p).getD []).flatten).length
       = ((["a.pdf", "b.pdf"] : List String).map fun p => ((fsW p).getD []).length).sum) :=
  ⟨by decide, by decide,
   merge_concatenates_pages fsW ["a.pdf", "b.pdf"] "out.pdf" (by decide) (by decide)⟩

/-- C2: splitting an `N`-page document with `start_page = a`, `end_page = b`
for `0 ≤ a ≤ b ≤ N` writes exactly `b - a` pages: the input's pages with
indices in `[a, b)`, in their original order. -/
theorem split_range_exact {α : Type} (fs : FS α) (path output_path : String)
    (d : List α) (a b : Nat) (hd : fs path = some d) (hab : a ≤ b)
    (hb : b ≤ d.length) :
    (SplitStrategy.executeWith fs path output_path (a : Int) (some (b : Int))).2
      = none ∧
    (SplitStrategy.executeWith fs path output_path (a : Int) (some (b : Int))).1
      output_path = some ((d.take b).drop a) ∧
    ((d.take b).drop a).length = b - a ∧
    (∀ i, i < b - a → ((d.take b).drop a)[i]? = d[a + i]?) := by
  rw [executeWith_some fs path output_path d _ _ hd]
  refine ⟨rfl, ?_, ?_, ?_⟩
  · rw [pySlice_natCast d a b (hab.trans hb) hb]
    simp [writeOut]
  · rw [List.length_drop, List.length_take]
    omega
  · intro i hi
    rw [List.getElem?_drop, List.getElem?_take_of_lt (by omega)]

/-- C2 witness: splitting the 5-page `"big.pdf"` with `start_page = 2`,
`end_page = 5` writes its pages 2, 3, 4. -/
theorem split_range_exact_witness :
    fsW "big.pdf" = some [0, 1, 2, 3, 4] ∧ (2 : Nat) ≤ 5 ∧ (5 : Nat) ≤ 5 ∧
    ((SplitStrategy.executeWith fsW "big.pdf" "out.pdf" ((2 : Nat) : Int)
        (some ((5 : Nat) : Int))).2 = none ∧
     (SplitStrategy.executeWith fsW "big.pdf" "out.pdf" ((2 : Nat) : Int)
        (some ((5 : Nat) : Int))).1 "out.pdf"
       = some (([0, 1, 2, 3, 4].take 5).drop 2) ∧
     (([0, 1, 2, 3, 4].take 5).drop 2).length = 5 - 2 ∧
     (∀ i, i < 5 - 2 →
       (([0, 1, 2, 3, 4].take 5).drop 2)[i]? = [0, 1, 2, 3, 4][2 + i]?)) :=
  ⟨by decide, by decide, by decide,
   split_range_exact fsW "big.pdf" "out.pdf" [0, 1, 2, 3, 4] 2 5
     (by decide) (by decide) (by decide)⟩

/-- C4: with non-negative `start_page = a`, `end_page = b`, splitting writes
an empty output document (not an error) when `a ≥ b` or `a ≥ N`, and when
`b > N` the range is clamped so exactly the pages with indices in `[a, N)`
are written. -/
theorem split_edge_cases {α : Type} (fs : FS α) (path output_path : String)
    (d : List α) (a b : Nat) (hd : fs path = some d) :
    (SplitStrategy.executeWith fs path output_path (a : Int) (some (b : Int))).2
      = none ∧
    ((b ≤ a ∨ d.length ≤ a) →
      (SplitStrategy.executeWith fs path output_path (a : Int) (some (b : Int))).1
        output_path = some []) ∧
    (d.length < b →
      (SplitStrategy.executeWith fs path output_path (a : Int) (some (b : Int))).1
        output_path = some (d.drop a)) := by
  rw [executeWith_some fs path output_path d _ _ hd]
  refine ⟨rfl, ?_, ?_⟩
  · intro hcase
    rw [pySlice_nil_of_degenerate d a b hcase]
    simp [writeOut]
  · intro hcase
    rw [pySlice_of_stop_ge d a b (Nat.le_of_lt hcase)]
    simp [writeOut]

/-- C4 witness: on the 5-page `"big.pdf"`, `start_page = 3, end_page = 2`
writes an empty document, and `start_page = 2, end_page = 9` is clamped to
pages 2, 3, 4. -/
theorem split_edge_cases_witness :
    fsW "big.pdf" = some [0, 1, 2, 3, 4] ∧
    (SplitStrategy.executeWith fsW "big.pdf" "out.pdf" ((3 : Nat) : Int)
       (some ((2 : Nat) : Int))).1 "out.pdf" = some [] ∧
    (SplitStrategy.executeWith fsW "big.pdf" "out.pdf" ((2 : Nat) : Int)
       (some ((9 : Nat) : Int))).1 "out.pdf" = some ([0, 1, 2, 3, 4].drop 2) :=
  ⟨by decide,
   (split_edge_cases fsW "big.pdf" "out.pdf" [0, 1, 2, 3, 4] 3 2
      (by decide)).2.1 (Or.inl (by decide)),
   (split_edge_cases fsW "big.pdf" "out.pdf" [0, 1, 2, 3, 4] 2 9
      (by decide)).2.2 (by decide)⟩

/-- C6: splitting an `N`-page document with the defaults `start_page = 0`,
`end_page = None` writes an output document identical to the input: same
pages, same order, hence exactly `N` pages. -/
theorem split_default_full_copy {α : Type} (fs : FS α) (path output_path : String)
    (d : List α) (hd : fs path = some d) :
    (SplitStrategy.execute fs path output_path).2 = none ∧
    (SplitStrategy.execute fs path output_path).1 output_path = some d := by
  unfold SplitStrategy.execute
  rw [executeWith_some fs path output_path d _ _ hd]
  refine ⟨rfl, ?_⟩
  rw [pySlice_zero_none]
  simp [writeOut]

/-- C6 witness: the default split of the 3-page `"a.pdf"` copies it whole. -/
theorem split_default_full_copy_witness :
    fsW "a.pdf" = some [0, 1, 2] ∧
    ((SplitStrategy.execute fsW "a.pdf" "out.pdf").2 = none ∧
     (SplitStrategy.execute fsW "a.pdf" "out.pdf").1 "out.pdf" = some [0, 1, 2]) :=
  ⟨by decide, split_default_full_copy fsW "a.pdf" "out.pdf" [0, 1, 2] (by decide)⟩

/-- C9: a `PDFEditor` holding a `SplitStrategy` calls its `execute` with
only `(pdf_path, output_path)`, so the split runs with the defaults
`start_page = 0`, `end_page = None` and always writes a full copy of the
input; no page range can be selected through the editor entry point. -/
theorem editor_split_always_full_copy {α : Type} (fs : FS α)
    (path output_path : String) (d : List α) (hd : fs path = some d) :
    (PDFEditor.mk SplitStrategy.execute).execute_operation fs path output_path
      = SplitStrategy.executeWith fs path output_path 0 none ∧
    ((PDFEditor.mk SplitStrategy.execute).execute_operation fs path output_path).2
      = none ∧
    ((PDFEditor.mk SplitStrategy.execute).execute_operation fs path output_path).1
      output_path = some d := by
  refine ⟨rfl, ?_, ?_⟩
  · exact (split_default_full_copy fs path output_path d hd).1
  · exact (split_default_full_copy fs path output_path d hd).2

/-- C9 witness: through the editor, splitting the 5-page `"big.pdf"` copies
all 5 pages. -/
theorem editor_split_always_full_copy_witness :
    fsW "big.pdf" = some [0, 1, 2, 3, 4] ∧
    ((PDFEditor.mk SplitStrategy.execute).execute_operation fsW "big.pdf" "out.pdf"
       = SplitStrategy.executeWith fsW "big.pdf" "out.pdf" 0 none ∧
     ((PDFEditor.mk SplitStrategy.execute).execute_operation fsW "big.pdf" "out.pdf").2
       = none ∧
     ((PDFEditor.mk SplitStrategy.execute).execute_operation fsW "big.pdf" "out.pdf").1
       "out.pdf" = some [0, 1, 2, 3, 4]) :=
  ⟨by decide,
   editor_split_always_full_copy fsW "big.pdf" "out.pdf" [0, 1, 2, 3, 4] (by decide)⟩

/-- C10: splitting accepts a negative `start_page` and interprets it by
Python slice semantics, counting from the end of the document (floored at
index 0), raising no error; in particular `start_page = -1` with
`end_page = None` writes exactly the input's last page. -/
theorem split_negative_start {α : Type} (fs : FS α) (path output_path : String)
    (d : List α) (hd : fs path = some d) (hne : d ≠ []) :
    (∀ s : Int, s < 0 →
      (SplitStrategy.executeWith fs path output_path s none).2 = none ∧
      (SplitStrategy.executeWith fs path output_path s none).1 output_path
        = some (d.drop (s + d.length).toNat)) ∧
    (SplitStrategy.executeWith fs path output_path (-1) none).1 output_path
      = some [d.getLast hne] := by
  have hgen : ∀ s : Int, s < 0 →
      (SplitStrategy.executeWith fs path output_path s none).2 = none ∧
      (SplitStrategy.executeWith fs path output_path s none).1 output_path
        = some (d.drop (s + d.length).toNat) := by
    intro s hs
    rw [executeWith_some fs path output_path d _ _ hd]
    refine ⟨rfl, ?_⟩
    rw [pySlice_neg_none d s hs]
    simp [writeOut]
  refine ⟨hgen, ?_⟩
  have h1 := (hgen (-1) (by omega)).2
  have hlen : 1 ≤ d.length := List.length_pos.mpr hne
  have htoNat : ((-1 : Int) + d.length).toNat = d.length - 1 := by omega
  rw [h1, htoNat, drop_length_sub_one d hne]

/-- C10 witness: on the 3-page `"a.pdf"`, `start_page = -1` writes exactly
the last page. -/
theorem split_negative_start_witness :
    fsW "a.pdf" = some [0, 1, 2] ∧ ([0, 1, 2] : List Nat) ≠ [] ∧
    ((∀ s : Int, s < 0 →
       (SplitStrategy.executeWith fsW "a.pdf" "out.pdf" s none).2 = none ∧
       (SplitStrategy.executeWith fsW "a.pdf" "out.pdf" s none).1 "out.pdf"
         = some (([0, 1, 2] : List Nat).drop (s + ([0, 1, 2] : List Nat).length).toNat)) ∧
     (SplitStrategy.executeWith fsW "a.pdf" "out.pdf" (-1) none).1 "out.pdf"
       = some [([0, 1, 2] : List Nat).getLast (by decide)]) :=
  ⟨by decide, by decide,
   split_negative_start fsW "a.pdf" "out.pdf" [0, 1, 2] (by decide) (by decide)⟩
